import Mathlib

/-!
Verification of the snippy-ai-hackathon code-snippet service.

Part 1 embeds `src/function_app.py`: blueprint registration at startup and
the two health-check HTTP endpoints.  Part 2 models the components whose
implementation is not part of the visible source (Snippet Repository,
Query Engine, Ingestion Pipeline, Multi-Agent Orchestrator) from the
specification document.
-/

namespace Snippy

/-! ### Blueprint registration (function_app.py, module top level) -/

/-- The five blueprints `function_app.py` tries to register, in source
order: snippy, query, embeddings, ingestion, multi-agent. -/
inductive Blueprint
  | snippy
  | query
  | embeddings
  | ingestion
  | multiAgent
deriving DecidableEq, Repr

/-- The registration order of the five try/except blocks in
`function_app.py`. -/
def allBlueprints : List Blueprint :=
  [.snippy, .query, .embeddings, .ingestion, .multiAgent]

/-- Outcome of the module top level: which blueprints got registered on
`app` and which failures got logged by an `except` arm. -/
structure RegistrationResult where
  registered : List Blueprint
  errorsLogged : List Blueprint
deriving DecidableEq, Repr

/-- One try/except block of `function_app.py`: if the import or the
`register_blueprint` call raises (`raises b = true`), the exception is
caught and an error is logged; otherwise the blueprint is registered. -/
def registerStep (raises : Blueprint → Bool) (acc : RegistrationResult)
    (b : Blueprint) : RegistrationResult :=
  if raises b then { acc with errorsLogged := acc.errorsLogged ++ [b] }
  else { acc with registered := acc.registered ++ [b] }

/-- The module top level of `function_app.py`: the five try/except blocks
run in order, each independent of the previous ones' outcomes. -/
def registerBlueprints (raises : Blueprint → Bool) : RegistrationResult :=
  allBlueprints.foldl (registerStep raises) ⟨[], []⟩

/-! ### JSON values and HTTP responses (shallow model of the glue types) -/

/-- Minimal JSON model, enough for the bodies built by the health checks. -/
inductive Json
  | str : String → Json
  | num : Int → Json
  | bool : Bool → Json
  | null : Json
  | obj : List (String × Json) → Json

/-- `func.HttpResponse` as built in `function_app.py`: a JSON body and a
status code (the mimetype is always "application/json"). -/
structure HttpResponse where
  body : Json
  statusCode : Nat

/-- `func.HttpRequest`: the health endpoints ignore everything in it, so
only the route is modelled. -/
structure HttpRequest where
  route : String

/-! ### http_health_check (function_app.py lines 89-110) -/

/-- The `try` body of `http_health_check`: log and build the 200 response.
It is pure — nothing in it can raise — which the `Except` result records
by always being `ok`. -/
def healthCheckTryBody : Except String HttpResponse :=
  Except.ok { body := Json.obj [("status", Json.str "ok")], statusCode := 200 }

/-- `http_health_check`: run the try body; were it to raise, answer 500
with an error body. -/
def http_health_check (_req : HttpRequest) : HttpResponse :=
  match healthCheckTryBody with
  | Except.ok r => r
  | Except.error e =>
      { body := Json.obj [("status", Json.str "error"), ("message", Json.str e)],
        statusCode := 500 }

/-! ### http_health_check_extended (function_app.py lines 114-236) -/

/-- The health dict either helper returns: the `healthy` flag, the
`error` message of the `except` arm, and the informational keys of the
success arm. -/
structure ServiceHealth where
  healthy : Bool
  error : Option String
  detail : List (String × Json)

/-- Environment seen by `_check_storage_connection`: the
`AzureWebJobsStorage` connection string (absent when the variable is
unset), the ingestion container name, and the outcome of the blob calls —
`Except.error` when any call in the `try` body raises, `ok` with the
container's optional `last_modified` otherwise. -/
structure StorageEnv where
  connectionString : Option String
  containerName : String
  containerCall : Except String (Option String)

/-- `_check_storage_connection`: missing connection string or a raising
blob call yield `healthy = false` with the error recorded; a successful
call yields `healthy = true`.  No exception escapes. -/
def check_storage_connection (env : StorageEnv) : ServiceHealth :=
  match env.connectionString with
  | none =>
      { healthy := false,
        error := some "AzureWebJobsStorage environment variable not found",
        detail := [] }
  | some _ =>
      match env.containerCall with
      | Except.error e => { healthy := false, error := some e, detail := [] }
      | Except.ok lastModified =>
          { healthy := true, error := none,
            detail := [("container", Json.str env.containerName),
                       ("last_modified",
                         match lastModified with
                         | some t => Json.str t
                         | none => Json.null)] }

/-- Environment seen by `_check_cosmos_connection`: `Except.error` when
the import, `get_container` or `read` raises, else the database name,
container name and `_ts` of the container properties. -/
structure CosmosEnv where
  call : Except String (String × String × Option Int)

/-- `_check_cosmos_connection`: a raising call yields `healthy = false`
with the error recorded; success yields `healthy = true`.  No exception
escapes. -/
def check_cosmos_connection (env : CosmosEnv) : ServiceHealth :=
  match env.call with
  | Except.error e => { healthy := false, error := some e, detail := [] }
  | Except.ok (db, cont, ts) =>
      { healthy := true, error := none,
        detail := [("database", Json.str db), ("container", Json.str cont),
                   ("last_modified",
                     match ts with
                     | some t => Json.num t
                     | none => Json.null)] }

/-- Response of `http_health_check_extended` before serialisation:
overall status string, the two service health dicts, and the HTTP code. -/
structure ExtendedHealth where
  status : String
  storage : ServiceHealth
  cosmos : ServiceHealth
  statusCode : Nat

/-- `http_health_check_extended`: run both checks, compute
`all_healthy` over the two `healthy` flags, and answer 200/"healthy" or
503/"degraded". -/
def http_health_check_extended (senv : StorageEnv) (cenv : CosmosEnv) :
    ExtendedHealth :=
  let storageStatus := check_storage_connection senv
  let cosmosStatus := check_cosmos_connection cenv
  let allHealthy := storageStatus.healthy && cosmosStatus.healthy
  if allHealthy then
    { status := "healthy", storage := storageStatus, cosmos := cosmosStatus,
      statusCode := 200 }
  else
    { status := "degraded", storage := storageStatus, cosmos := cosmosStatus,
      statusCode := 503 }

/-! ### Snippet Repository (spec section 4.1)

The repository implementation (`data/cosmos_ops.py`) is referenced by the
visible test file but is not part of the visible source, so it is
modelled from the specification. -/

/-- Modelled from the spec: the Snippet Document of section 3 (the
repository implementation is missing from the visible source).  `id` is
the stable identifier, `(projectId, name)` the natural key, `language`
defaults to "unknown" when absent, `embedding` is the vector computed
from the code, `updatedAt` the write timestamp. -/
structure SnippetDoc where
  id : String
  projectId : String
  name : String
  code : String
  language : String
  description : Option String
  embedding : List Rat
  updatedAt : Nat
deriving DecidableEq, Repr

/-- Modelled from the spec: the error taxonomy of section 7 restricted to
what the repository and query engine surface synchronously. -/
inductive RepoError
  | validationError
  | storageError
  | dependencyError
deriving DecidableEq, Repr

/-- Modelled from the spec: the embedding input is `code + "\n" +
description`, the description concatenated only when present
(section 4.1). -/
def embedInput (code : String) (description : Option String) : String :=
  match description with
  | some d => code ++ "\n" ++ d
  | none => code

/-- The natural-key test used by upsert: does document `d` carry the key
`(projectId, name)`? -/
def sameKey (projectId name : String) (d : SnippetDoc) : Bool :=
  d.projectId == projectId && d.name == name

/-- The natural key of a stored document. -/
def keyOf (d : SnippetDoc) : String × String := (d.projectId, d.name)

/-- Environment of one upsert call: the opaque Embedding Client, the id
generated for a new document, and the write timestamp. -/
structure RepoEnv where
  embed : String → List Rat
  freshId : String
  now : Nat

/-- Modelled from the spec: `upsert(name, project_id, code, language?,
description?)` of section 4.1 (the implementation `upsert_document` in
`data/cosmos_ops.py` is missing from the visible source).  Validates the
three required fields, computes the embedding, and either replaces the
document matching the natural key `(project_id, name)` — full-field
replace preserving the original `id` — or appends a document with a fresh
id.  The store is the opaque Document Store, modelled as the list of live
documents. -/
def upsert (env : RepoEnv) (store : List SnippetDoc)
    (name projectId code : String) (language : Option String)
    (description : Option String) :
    Except RepoError (List SnippetDoc × SnippetDoc) :=
  if name = "" ∨ projectId = "" ∨ code = "" then
    Except.error RepoError.validationError
  else
    let emb := env.embed (embedInput code description)
    let lang := language.getD "unknown"
    match store.find? (sameKey projectId name) with
    | some existing =>
        let newDoc : SnippetDoc :=
          ⟨existing.id, projectId, name, code, lang, description, emb, env.now⟩
        Except.ok (store.map fun d => if sameKey projectId name d then newDoc else d,
                   newDoc)
    | none =>
        let newDoc : SnippetDoc :=
          ⟨env.freshId, projectId, name, code, lang, description, emb, env.now⟩
        Except.ok (store ++ [newDoc], newDoc)

/-- The key-uniqueness invariant of section 3: the natural keys of the
live documents are pairwise distinct. -/
def keyUnique (store : List SnippetDoc) : Prop := (store.map keyOf).Nodup

/-- Arguments of one upsert call (the ingestion source record shape of
section 6). -/
structure UpsertArgs where
  name : String
  projectId : String
  code : String
  language : Option String
  description : Option String
deriving DecidableEq, Repr

/-- Apply one upsert to the store, keeping the store unchanged when the
call fails. -/
def applyUpsert (env : RepoEnv) (store : List SnippetDoc) (a : UpsertArgs) :
    List SnippetDoc :=
  match upsert env store a.name a.projectId a.code a.language a.description with
  | Except.ok (s, _) => s
  | Except.error _ => store

/-- Run a sequence of upsert operations, each with its own environment
(fresh id and timestamp). -/
def runUpserts (store : List SnippetDoc) (ops : List (RepoEnv × UpsertArgs)) :
    List SnippetDoc :=
  ops.foldl (fun s p => applyUpsert p.1 s p.2) store

/-! ### Witness constants for the repository theorems -/

/-- A concrete repository environment for witnesses. -/
def wEnv1 : RepoEnv := ⟨fun _ => [], "id-1", 1⟩

/-- A second concrete environment with a different fresh id and time. -/
def wEnv2 : RepoEnv := ⟨fun _ => [], "id-2", 2⟩

/-- Concrete upsert arguments for witnesses. -/
def wArgs : UpsertArgs := ⟨"fib", "p1", "def fib(n): pass", none, none⟩

/-- The document stored by the first witness upsert. -/
def wDoc1 : SnippetDoc := ⟨"id-1", "p1", "fib", "def fib(n): pass", "unknown", none, [], 1⟩

/-- The document stored by the second witness upsert: same id, new
timestamp. -/
def wDoc2 : SnippetDoc := ⟨"id-1", "p1", "fib", "def fib(n): pass", "unknown", none, [], 2⟩

/-! ### Query Engine (spec section 4.3)

The query engine and the store's similarity-search primitive are not part
of the visible source; they are modelled from the specification. -/

/-- A retrieval hit: a stored document with its similarity score
(section 3's Retrieval Result element). -/
structure Hit where
  doc : SnippetDoc
  score : Rat
deriving DecidableEq, Repr

/-- Modelled from the spec: the ranking order of section 3 — descending
score, stable tie-break by `id`.  `hitBefore a b` says `a` may appear no
later than `b`. -/
def hitBefore (a b : Hit) : Bool :=
  decide (b.score < a.score) ||
    (decide (a.score = b.score) && decide (a.doc.id ≤ b.doc.id))

/-- Insert a hit into a ranked list, keeping the ranking order. -/
def insertHit (a : Hit) : List Hit → List Hit
  | [] => [a]
  | b :: t => if hitBefore a b then a :: b :: t else b :: insertHit a t

/-- Rank a list of hits by descending score with the id tie-break. -/
def sortHits : List Hit → List Hit
  | [] => []
  | a :: t => insertHit a (sortHits t)

/-- Modelled from the spec: the Document Store's `similarity_search`
primitive (section 6) — score every document in scope with the opaque
similarity function, rank as in section 3, return at most `k`. -/
def similarity_search (sim : List Rat → List Rat → Rat)
    (store : List SnippetDoc) (qvec : List Rat) (k : Nat)
    (filt : Option String) : List Hit :=
  let inScope : List SnippetDoc := match filt with
    | some pid => store.filter fun d => d.projectId == pid
    | none => store
  (sortHits (inScope.map fun d => ⟨d, sim qvec d.embedding⟩)).take k

/-- Modelled from the spec: `search(query_text, top_k, project_id?,
min_score?)` of section 4.3 (the query route implementation is missing
from the visible source).  Rejects `top_k ≤ 0` with ValidationError,
embeds the query, calls similarity search scoped to the project when
given, filters by `min_score` (default 0) after retrieval, then truncates
to `top_k`. -/
def search (embed : String → List Rat) (sim : List Rat → List Rat → Rat)
    (store : List SnippetDoc) (query_text : String) (top_k : Int)
    (project_id : Option String) (min_score : Option Rat) :
    Except RepoError (List Hit) :=
  if top_k ≤ 0 then Except.error RepoError.validationError
  else
    let qvec := embed query_text
    let hits := similarity_search sim store qvec top_k.toNat project_id
    let ms := min_score.getD 0
    Except.ok ((hits.filter fun h => decide (ms ≤ h.score)).take top_k.toNat)

/-! ### Ingestion Pipeline (spec section 4.2)

The ingestion blueprint's implementation is not part of the visible
source; it is modelled from the specification. -/

/-- Modelled from the spec: one raw item of an ingestion batch (a JSON
object whose required fields may be missing or empty). -/
structure RawItem where
  name : Option String
  projectId : Option String
  code : Option String
  language : Option String
  description : Option String
deriving DecidableEq, Repr

/-- Modelled from the spec: parsing a raw item into the repository's
input shape; `none` when the item is malformed — a required field
missing or empty (sections 4.2 and 6). -/
def parseItem (r : RawItem) : Option UpsertArgs :=
  match r.name, r.projectId, r.code with
  | some n, some p, some c =>
      if n = "" ∨ p = "" ∨ c = "" then none
      else some ⟨n, p, c, r.language, r.description⟩
  | _, _, _ => none

/-- Modelled from the spec: a recorded per-item ingestion failure
(section 7's `IngestionError`). -/
structure IngestionError where
  item : RawItem
deriving DecidableEq, Repr

/-- Outcome of one batch: the accepted documents and the recorded
per-item errors. -/
structure BatchResult where
  accepted : List UpsertArgs
  errors : List IngestionError
deriving DecidableEq, Repr

/-- Modelled from the spec: batch processing with partial-failure
semantics (section 4.2) — each malformed item is recorded as an
`IngestionError` and skipped; each well-formed item is accepted; a bad
entry never aborts the rest of the batch. -/
def processBatch : List RawItem → BatchResult
  | [] => ⟨[], []⟩
  | r :: t =>
      let rest := processBatch t
      match parseItem r with
      | some args => ⟨args :: rest.accepted, rest.errors⟩
      | none => ⟨rest.accepted, ⟨r⟩ :: rest.errors⟩

/-! ### Multi-Agent Orchestrator (spec section 4.4)

The orchestrator blueprint's implementation is not part of the visible
source; its task state machine is modelled from the specification. -/

/-- Modelled from the spec: the per-task lifecycle states of section 3. -/
inductive TState
  | pending
  | running
  | done
  | failed
deriving DecidableEq, Repr

/-- Modelled from the spec: the task DAG of one orchestration request —
tasks are numbered and each task lists its dependencies. -/
structure TaskGraph where
  numTasks : Nat
  deps : Nat → List Nat

/-- Orchestrator state: each task's lifecycle state plus whether the
Reasoning Agent has ever been invoked for it.  The `invoked` flag is set
exactly when a task starts RUNNING and is never cleared. -/
structure OrchState where
  st : Nat → TState
  invoked : Nat → Bool

/-- The initial state: every task PENDING, no agent invoked. -/
def initState : OrchState := ⟨fun _ => TState.pending, fun _ => false⟩

/-- Modelled from the spec: the scheduler transitions of section 4.4.
`start` moves a pending task whose dependencies are all DONE to RUNNING,
invoking the agent; `finish` settles a RUNNING task to DONE or FAILED
with the agent's outcome; `failFast` moves a pending task with a FAILED
dependency directly to FAILED without invoking the agent; `timeout`
fails a task still PENDING or RUNNING when the deadline elapses. -/
inductive Step (g : TaskGraph) : OrchState → OrchState → Prop
  | start {s : OrchState} (t : Nat) (ht : t < g.numTasks)
      (hp : s.st t = TState.pending)
      (hd : ∀ d ∈ g.deps t, s.st d = TState.done) :
      Step g s ⟨Function.update s.st t TState.running,
                Function.update s.invoked t true⟩
  | finish {s : OrchState} (t : Nat) (ok : Bool)
      (hr : s.st t = TState.running) :
      Step g s ⟨Function.update s.st t
                  (if ok then TState.done else TState.failed),
                s.invoked⟩
  | failFast {s : OrchState} (t : Nat) (ht : t < g.numTasks)
      (hp : s.st t = TState.pending) (d : Nat) (hd : d ∈ g.deps t)
      (hf : s.st d = TState.failed) :
      Step g s ⟨Function.update s.st t TState.failed, s.invoked⟩
  | timeout {s : OrchState} (t : Nat)
      (hp : s.st t = TState.pending ∨ s.st t = TState.running) :
      Step g s ⟨Function.update s.st t TState.failed, s.invoked⟩

/-- The orchestrator states reachable from the initial state. -/
inductive Reachable (g : TaskGraph) : OrchState → Prop
  | init : Reachable g initState
  | step {s s2 : OrchState} : Reachable g s → Step g s s2 → Reachable g s2

/-- Transitive dependency: `DepTrans g d t` says task `t` of the graph
depends on `d` through one or more dependency edges. -/
inductive DepTrans (g : TaskGraph) : Nat → Nat → Prop
  | direct {d t : Nat} : t < g.numTasks → d ∈ g.deps t → DepTrans g d t
  | tail {d u t : Nat} : DepTrans g d u → t < g.numTasks → u ∈ g.deps t →
      DepTrans g d t

/-- The whole orchestration has finished: every task ended DONE or
FAILED. -/
def Finished (g : TaskGraph) (s : OrchState) : Prop :=
  ∀ u, u < g.numTasks → s.st u = TState.done ∨ s.st u = TState.failed

/-- The inductive invariant of the scheduler: an invoked task had all its
dependencies DONE, and a RUNNING or DONE task was invoked. -/
def Inv (g : TaskGraph) (s : OrchState) : Prop :=
  (∀ t, s.invoked t = true → ∀ d ∈ g.deps t, s.st d = TState.done) ∧
  (∀ t, s.st t = TState.running ∨ s.st t = TState.done →
    s.invoked t = true)

/-- Concrete two-task graph for the orchestrator witness: task 1 depends
on task 0. -/
def wG : TaskGraph := ⟨2, fun t => if t = 1 then [0] else []⟩

/-- Witness state after starting task 0. -/
def wOrchA : OrchState :=
  ⟨Function.update initState.st 0 TState.running,
   Function.update initState.invoked 0 true⟩

/-- Witness state after the agent fails task 0. -/
def wOrchB : OrchState :=
  ⟨Function.update wOrchA.st 0 (if false then TState.done else TState.failed),
   wOrchA.invoked⟩

/-- Witness state after task 1 fails fast on its failed dependency. -/
def wOrchC : OrchState :=
  ⟨Function.update wOrchB.st 1 TState.failed, wOrchB.invoked⟩

/-! ### Lemmas about blueprint registration -/

theorem registered_registerStep_subset (raises : Blueprint → Bool)
    (acc : RegistrationResult) (a : Blueprint) :
    acc.registered ⊆ (registerStep raises acc a).registered := by
  unfold registerStep
  split
  · exact fun _ h => h
  · intro b hb
    simp only [List.mem_append]
    exact Or.inl hb

theorem errorsLogged_registerStep_subset (raises : Blueprint → Bool)
    (acc : RegistrationResult) (a : Blueprint) :
    acc.errorsLogged ⊆ (registerStep raises acc a).errorsLogged := by
  unfold registerStep
  split
  · intro b hb
    simp only [List.mem_append]
    exact Or.inl hb
  · exact fun _ h => h

theorem registered_foldl_mono (raises : Blueprint → Bool) (l : List Blueprint)
    (acc : RegistrationResult) :
    acc.registered ⊆ (l.foldl (registerStep raises) acc).registered := by
  induction l generalizing acc with
  | nil => exact fun _ h => h
  | cons a t ih =>
    intro b hb
    exact ih (registerStep raises acc a) (registered_registerStep_subset raises acc a hb)

theorem errorsLogged_foldl_mono (raises : Blueprint → Bool) (l : List Blueprint)
    (acc : RegistrationResult) :
    acc.errorsLogged ⊆ (l.foldl (registerStep raises) acc).errorsLogged := by
  induction l generalizing acc with
  | nil => exact fun _ h => h
  | cons a t ih =>
    intro b hb
    exact ih (registerStep raises acc a) (errorsLogged_registerStep_subset raises acc a hb)

theorem mem_registered_foldl (raises : Blueprint → Bool) (l : List Blueprint)
    (acc : RegistrationResult) (b : Blueprint) (hb : b ∈ l)
    (hr : raises b = false) :
    b ∈ (l.foldl (registerStep raises) acc).registered := by
  induction l generalizing acc with
  | nil => cases hb
  | cons a t ih =>
    rcases List.mem_cons.mp hb with rfl | hb
    · refine registered_foldl_mono raises t (registerStep raises acc b) ?_
      unfold registerStep
      rw [hr]
      simp
    · exact ih (registerStep raises acc a) hb

theorem mem_errorsLogged_foldl (raises : Blueprint → Bool) (l : List Blueprint)
    (acc : RegistrationResult) (b : Blueprint) (hb : b ∈ l)
    (hr : raises b = true) :
    b ∈ (l.foldl (registerStep raises) acc).errorsLogged := by
  induction l generalizing acc with
  | nil => cases hb
  | cons a t ih =>
    rcases List.mem_cons.mp hb with rfl | hb
    · refine errorsLogged_foldl_mono raises t (registerStep raises acc b) ?_
      unfold registerStep
      rw [hr]
      simp
    · exact ih (registerStep raises acc a) hb

/-- C1: whatever subset of the five blueprints raises during import or
registration, every failure is caught and logged (never propagated out of
the module), and every blueprint outside the raising subset is still
registered. -/
theorem blueprint_registration_isolates_failures
    (raises : Blueprint → Bool) (b : Blueprint) (hb : b ∈ allBlueprints) :
    (raises b = false → b ∈ (registerBlueprints raises).registered) ∧
    (raises b = true → b ∈ (registerBlueprints raises).errorsLogged) :=
  ⟨fun hr => mem_registered_foldl raises allBlueprints ⟨[], []⟩ b hb hr,
   fun hr => mem_errorsLogged_foldl raises allBlueprints ⟨[], []⟩ b hb hr⟩

/-- Witness for C1: with only the query blueprint raising, the embeddings
blueprint (which comes after it) is still registered and the failure of
the query blueprint is logged. -/
theorem blueprint_registration_isolates_failures_witness :
    Blueprint.embeddings ∈
      (registerBlueprints fun b => decide (b = Blueprint.query)).registered ∧
    Blueprint.query ∈
      (registerBlueprints fun b => decide (b = Blueprint.query)).errorsLogged :=
  ⟨(blueprint_registration_isolates_failures (fun b => decide (b = Blueprint.query))
      Blueprint.embeddings (by decide)).1 (by decide),
   (blueprint_registration_isolates_failures (fun b => decide (b = Blueprint.query))
      Blueprint.query (by decide)).2 (by decide)⟩

/-- C2: every request to `http_health_check` gets status code 200 with
body `{"status": "ok"}`; the `except` arm is unreachable because the
`try` body always returns `ok`. -/
theorem health_check_always_ok (req : HttpRequest) :
    http_health_check req =
      { body := Json.obj [("status", Json.str "ok")], statusCode := 200 } ∧
    healthCheckTryBody = Except.ok (http_health_check req) :=
  ⟨rfl, rfl⟩

/-- C3: the extended health check answers 200/"healthy" iff both service
checks report healthy; otherwise 503/"degraded"; and a raising call inside
either helper is converted to a `healthy = false` dict carrying the error
instead of propagating. -/
theorem extended_health_check_correct (senv : StorageEnv) (cenv : CosmosEnv) :
    (((http_health_check_extended senv cenv).statusCode = 200 ∧
      (http_health_check_extended senv cenv).status = "healthy") ↔
      ((check_storage_connection senv).healthy = true ∧
       (check_cosmos_connection cenv).healthy = true)) ∧
    (((check_storage_connection senv).healthy = false ∨
      (check_cosmos_connection cenv).healthy = false) →
      (http_health_check_extended senv cenv).statusCode = 503 ∧
      (http_health_check_extended senv cenv).status = "degraded") ∧
    (∀ cs e, senv.connectionString = some cs →
      senv.containerCall = Except.error e →
      (check_storage_connection senv).healthy = false ∧
      (check_storage_connection senv).error = some e) ∧
    (∀ e, cenv.call = Except.error e →
      (check_cosmos_connection cenv).healthy = false ∧
      (check_cosmos_connection cenv).error = some e) := by
  refine ⟨?_, ?_, ?_, ?_⟩
  · unfold http_health_check_extended
    by_cases h1 : (check_storage_connection senv).healthy <;>
      by_cases h2 : (check_cosmos_connection cenv).healthy <;>
      simp [h1, h2]
  · intro h
    unfold http_health_check_extended
    rcases h with h | h <;> simp [h]
  · intro cs e hcs hcc
    unfold check_storage_connection
    rw [hcs, hcc]
    exact ⟨rfl, rfl⟩
  · intro e hc
    unfold check_cosmos_connection
    rw [hc]
    exact ⟨rfl, rfl⟩

/-- Witness for C3: a missing `AzureWebJobsStorage` variable makes the
storage check unhealthy, so the extended health check answers 503 and
"degraded"; a raising cosmos call is converted to an error dict. -/
theorem extended_health_check_correct_witness :
    ((http_health_check_extended ⟨none, "snippet-inputs", Except.ok none⟩
        ⟨Except.error "boom"⟩).statusCode = 503 ∧
     (http_health_check_extended ⟨none, "snippet-inputs", Except.ok none⟩
        ⟨Except.error "boom"⟩).status = "degraded") ∧
    ((check_cosmos_connection ⟨Except.error "boom"⟩).healthy = false ∧
     (check_cosmos_connection ⟨Except.error "boom"⟩).error = some "boom") :=
  ⟨(extended_health_check_correct ⟨none, "snippet-inputs", Except.ok none⟩
      ⟨Except.error "boom"⟩).2.1 (Or.inl rfl),
   (extended_health_check_correct ⟨none, "snippet-inputs", Except.ok none⟩
      ⟨Except.error "boom"⟩).2.2.2 "boom" rfl⟩

/-! ### Lemmas about the Snippet Repository -/

theorem sameKey_iff {projectId name : String} {d : SnippetDoc} :
    sameKey projectId name d = true ↔ keyOf d = (projectId, name) := by
  unfold sameKey keyOf
  rw [Bool.and_eq_true, beq_iff_eq, beq_iff_eq, Prod.mk.injEq]

theorem map_keyOf_replace (projectId name : String) (newDoc : SnippetDoc)
    (hkey : keyOf newDoc = (projectId, name)) (store : List SnippetDoc) :
    ((store.map fun d => if sameKey projectId name d then newDoc else d).map keyOf)
      = store.map keyOf := by
  induction store with
  | nil => rfl
  | cons d t ih =>
    simp only [List.map_cons]
    rw [ih]
    by_cases h : sameKey projectId name d = true
    · rw [if_pos h, hkey, sameKey_iff.mp h]
    · rw [if_neg h]

theorem find_append_singleton (p : SnippetDoc → Bool) (a : SnippetDoc)
    (l : List SnippetDoc) (hl : ∀ x ∈ l, ¬p x = true) (ha : p a = true) :
    (l ++ [a]).find? p = some a := by
  induction l with
  | nil => exact List.find?_cons_of_pos _ ha
  | cons x t ih =>
    rw [List.cons_append, List.find?_cons_of_neg _ (hl x (List.mem_cons_self x t))]
    exact ih fun y hy => hl y (List.mem_cons_of_mem x hy)

theorem find_replace (p : SnippetDoc → Bool) (newDoc : SnippetDoc)
    (hnew : p newDoc = true) (l : List SnippetDoc) (e : SnippetDoc)
    (h : l.find? p = some e) :
    (l.map fun x => if p x then newDoc else x).find? p = some newDoc := by
  induction l with
  | nil => cases h
  | cons x t ih =>
    by_cases hx : p x = true
    · rw [List.map_cons, if_pos hx]
      exact List.find?_cons_of_pos _ hnew
    · rw [List.find?_cons_of_neg _ hx] at h
      rw [List.map_cons, if_neg hx, List.find?_cons_of_neg _ hx]
      exact ih h

theorem countP_one_of_nodup (projectId name : String) (l : List SnippetDoc)
    (hu : keyUnique l) (e : SnippetDoc)
    (h : l.find? (sameKey projectId name) = some e) :
    l.countP (sameKey projectId name) = 1 := by
  induction l with
  | nil => cases h
  | cons x t ih =>
    unfold keyUnique at hu
    rw [List.map_cons, List.nodup_cons] at hu
    by_cases hx : sameKey projectId name x = true
    · rw [List.countP_cons, if_pos hx]
      have ht : t.countP (sameKey projectId name) = 0 := by
        rw [List.countP_eq_zero]
        intro y hy hpy
        exact hu.1 (by
          rw [sameKey_iff.mp hx, ← sameKey_iff.mp hpy]
          exact List.mem_map_of_mem keyOf hy)
      rw [ht]
    · rw [List.countP_cons, if_neg hx, Nat.add_zero]
      rw [List.find?_cons_of_neg _ hx] at h
      exact ih hu.2 h

theorem countP_replace (projectId name : String) (newDoc : SnippetDoc)
    (hnew : sameKey projectId name newDoc = true) (l : List SnippetDoc) :
    (l.map fun x => if sameKey projectId name x then newDoc else x).countP
        (sameKey projectId name)
      = l.countP (sameKey projectId name) := by
  rw [List.countP_map]
  apply List.countP_congr
  intro x _
  by_cases hx : sameKey projectId name x = true
  · rw [Function.comp_apply, if_pos hx, hnew, hx]
  · rw [Function.comp_apply, if_neg hx]

theorem upsert_ok_facts (env : RepoEnv) (store : List SnippetDoc)
    (name projectId code : String) (language : Option String)
    (description : Option String) (s' : List SnippetDoc) (d : SnippetDoc)
    (hu : keyUnique store)
    (h : upsert env store name projectId code language description
          = Except.ok (s', d)) :
    s'.find? (sameKey projectId name) = some d ∧
    s'.countP (sameKey projectId name) = 1 ∧
    keyOf d = (projectId, name) ∧
    keyUnique s' ∧
    (∀ e, store.find? (sameKey projectId name) = some e → d.id = e.id) := by
  by_cases hv : name = "" ∨ projectId = "" ∨ code = ""
  · rw [upsert, if_pos hv] at h
    cases h
  · rcases hfind : store.find? (sameKey projectId name) with _ | existing
    · rw [upsert, if_neg hv] at h
      simp only [hfind] at h
      obtain ⟨h1, h2⟩ := Prod.mk.injEq .. ▸ Except.ok.injEq .. ▸ h
      subst h1; subst h2
      have hnewkey : keyOf (⟨env.freshId, projectId, name, code,
          language.getD "unknown", description,
          env.embed (embedInput code description), env.now⟩ : SnippetDoc)
          = (projectId, name) := rfl
      have hnew : sameKey projectId name (⟨env.freshId, projectId, name, code,
          language.getD "unknown", description,
          env.embed (embedInput code description), env.now⟩ : SnippetDoc) = true :=
        sameKey_iff.mpr hnewkey
      have hnone := List.find?_eq_none.mp hfind
      refine ⟨find_append_singleton _ _ _ hnone hnew, ?_, hnewkey, ?_, ?_⟩
      · rw [List.countP_append, List.countP_eq_zero.mpr hnone,
          List.countP_cons, if_pos hnew]
        rfl
      · unfold keyUnique
        rw [List.map_append, List.nodup_append]
        refine ⟨hu, List.nodup_singleton _, ?_⟩
        intro k hk hk2
        rw [List.map_singleton, List.mem_singleton] at hk2
        subst hk2
        rw [hnewkey] at hk
        obtain ⟨y, hy, hky⟩ := List.mem_map.mp hk
        exact hnone y hy (sameKey_iff.mpr hky)
      · intro e he
        simp at he
    · rw [upsert, if_neg hv] at h
      simp only [hfind] at h
      obtain ⟨h1, h2⟩ := Prod.mk.injEq .. ▸ Except.ok.injEq .. ▸ h
      subst h1; subst h2
      have hnewkey : keyOf (⟨existing.id, projectId, name, code,
          language.getD "unknown", description,
          env.embed (embedInput code description), env.now⟩ : SnippetDoc)
          = (projectId, name) := rfl
      have hnew : sameKey projectId name (⟨existing.id, projectId, name, code,
          language.getD "unknown", description,
          env.embed (embedInput code description), env.now⟩ : SnippetDoc) = true :=
        sameKey_iff.mpr hnewkey
      refine ⟨find_replace _ _ hnew store existing hfind, ?_, hnewkey, ?_, ?_⟩
      · rw [countP_replace _ _ _ hnew]
        exact countP_one_of_nodup _ _ store hu existing hfind
      · unfold keyUnique
        rw [map_keyOf_replace _ _ _ hnewkey]
        exact hu
      · intro e he
        obtain rfl := Option.some.inj he
        rfl

theorem applyUpsert_keyUnique (env : RepoEnv) (store : List SnippetDoc)
    (a : UpsertArgs) (hu : keyUnique store) :
    keyUnique (applyUpsert env store a) := by
  unfold applyUpsert
  rcases h : upsert env store a.name a.projectId a.code a.language a.description
    with _ | ⟨s, d⟩
  · exact hu
  · exact (upsert_ok_facts env store a.name a.projectId a.code a.language
      a.description s d hu h).2.2.2.1

/-- C4: upsert fails with ValidationError exactly when one of name,
project_id, code is empty; with all three non-empty it never fails with
ValidationError. -/
theorem upsert_validation (env : RepoEnv) (store : List SnippetDoc)
    (name projectId code : String) (language : Option String)
    (description : Option String) :
    ((name = "" ∨ projectId = "" ∨ code = "") →
      upsert env store name projectId code language description
        = Except.error RepoError.validationError) ∧
    (¬(name = "" ∨ projectId = "" ∨ code = "") →
      upsert env store name projectId code language description
        ≠ Except.error RepoError.validationError) := by
  constructor
  · intro h
    rw [upsert, if_pos h]
  · intro h
    rw [upsert, if_neg h]
    rcases store.find? (sameKey projectId name) with _ | existing <;> simp

/-- Witness for C4: an empty name fails with ValidationError; fully
populated arguments do not. -/
theorem upsert_validation_witness :
    upsert wEnv1 [] "" "p1" "code" none none
      = Except.error RepoError.validationError ∧
    upsert wEnv1 [] "fib" "p1" "code" none none
      ≠ Except.error RepoError.validationError :=
  ⟨(upsert_validation wEnv1 [] "" "p1" "code" none none).1 (Or.inl rfl),
   (upsert_validation wEnv1 [] "fib" "p1" "code" none none).2 (by decide)⟩

/-- C5: upsert is idempotent on the natural key — starting from a store
satisfying the key-uniqueness invariant, two upserts with identical
arguments leave exactly one stored document for `(project_id, name)`, and
the id after the second call equals the id after the first (the replace
preserves the original id). -/
theorem upsert_idempotent (env1 env2 : RepoEnv) (store : List SnippetDoc)
    (a : UpsertArgs) (hu : keyUnique store)
    (s1 s2 : List SnippetDoc) (d1 d2 : SnippetDoc)
    (h1 : upsert env1 store a.name a.projectId a.code a.language a.description
          = Except.ok (s1, d1))
    (h2 : upsert env2 s1 a.name a.projectId a.code a.language a.description
          = Except.ok (s2, d2)) :
    s2.countP (sameKey a.projectId a.name) = 1 ∧ d2.id = d1.id := by
  obtain ⟨hf1, _, _, hu1, _⟩ :=
    upsert_ok_facts env1 store a.name a.projectId a.code a.language
      a.description s1 d1 hu h1
  obtain ⟨_, hc2, _, _, hid2⟩ :=
    upsert_ok_facts env2 s1 a.name a.projectId a.code a.language
      a.description s2 d2 hu1 h2
  exact ⟨hc2, hid2 d1 hf1⟩

/-- Witness for C5: two concrete upserts of the "fib" snippet leave one
document whose id survives the second write. -/
theorem upsert_idempotent_witness :
    List.countP (sameKey "p1" "fib") [wDoc2] = 1 ∧ wDoc2.id = wDoc1.id :=
  upsert_idempotent wEnv1 wEnv2 [] wArgs (by simp [keyUnique]) [wDoc1] [wDoc2]
    wDoc1 wDoc2 rfl rfl

/-- C6: key uniqueness — no two stored documents of one project share a
name — is an invariant preserved by every sequence of upsert
operations. -/
theorem keyUnique_invariant (ops : List (RepoEnv × UpsertArgs))
    (store : List SnippetDoc) (hu : keyUnique store) :
    keyUnique (runUpserts store ops) ∧
    (runUpserts store ops).Pairwise
      (fun a b => a.projectId = b.projectId → a.name ≠ b.name) := by
  have hk : keyUnique (runUpserts store ops) := by
    unfold runUpserts
    induction ops generalizing store with
    | nil => exact hu
    | cons p t ih => exact ih _ (applyUpsert_keyUnique p.1 store p.2 hu)
  refine ⟨hk, ?_⟩
  have hp := List.pairwise_map.mp hk
  exact hp.imp fun hab hproj hname => hab (by
    unfold keyOf
    rw [hproj, hname])

/-- Witness for C6: three concrete upserts (two of them to the same key)
leave a store with pairwise distinct natural keys. -/
theorem keyUnique_invariant_witness :
    keyUnique (runUpserts [] [(wEnv1, wArgs), (wEnv2, wArgs),
      (wEnv2, ⟨"sort", "p1", "def sort(xs): pass", none, none⟩)]) ∧
    (runUpserts [] [(wEnv1, wArgs), (wEnv2, wArgs),
      (wEnv2, ⟨"sort", "p1", "def sort(xs): pass", none, none⟩)]).Pairwise
      (fun a b => a.projectId = b.projectId → a.name ≠ b.name) :=
  keyUnique_invariant [(wEnv1, wArgs), (wEnv2, wArgs),
      (wEnv2, ⟨"sort", "p1", "def sort(xs): pass", none, none⟩)] []
    (by simp [keyUnique])

/-! ### Lemmas about the Query Engine -/

theorem hitBefore_eq_false_le {a b : Hit} (h : hitBefore a b = false) :
    a.score ≤ b.score := by
  unfold hitBefore at h
  rw [Bool.or_eq_false_iff] at h
  exact le_of_not_lt (of_decide_eq_false h.1)

theorem hitBefore_eq_true_le {a b : Hit} (h : hitBefore a b = true) :
    b.score ≤ a.score := by
  unfold hitBefore at h
  rw [Bool.or_eq_true] at h
  rcases h with h | h
  · exact le_of_lt (of_decide_eq_true h)
  · rw [Bool.and_eq_true] at h
    exact le_of_eq (of_decide_eq_true h.1).symm

theorem mem_insertHit (a x : Hit) (l : List Hit) :
    x ∈ insertHit a l ↔ x = a ∨ x ∈ l := by
  induction l with
  | nil => simp [insertHit]
  | cons b t ih =>
    unfold insertHit
    by_cases h : hitBefore a b = true
    · rw [if_pos h]
      simp [List.mem_cons]
    · rw [if_neg h]
      simp only [List.mem_cons, ih]
      tauto

theorem sorted_insertHit (a : Hit) (l : List Hit)
    (h : l.Pairwise fun x y => y.score ≤ x.score) :
    (insertHit a l).Pairwise fun x y => y.score ≤ x.score := by
  induction l with
  | nil => simp [insertHit]
  | cons b t ih =>
    rw [List.pairwise_cons] at h
    unfold insertHit
    by_cases hb : hitBefore a b = true
    · rw [if_pos hb, List.pairwise_cons]
      refine ⟨?_, List.pairwise_cons.mpr h⟩
      intro y hy
      rcases List.mem_cons.mp hy with rfl | hy
      · exact hitBefore_eq_true_le hb
      · exact le_trans (h.1 y hy) (hitBefore_eq_true_le hb)
    · rw [if_neg hb, List.pairwise_cons]
      refine ⟨?_, ih h.2⟩
      intro y hy
      rcases (mem_insertHit a y t).mp hy with rfl | hy
      · exact hitBefore_eq_false_le (Bool.eq_false_iff.mpr hb)
      · exact h.1 y hy

theorem sorted_sortHits (l : List Hit) :
    (sortHits l).Pairwise fun x y => y.score ≤ x.score := by
  induction l with
  | nil => exact List.Pairwise.nil
  | cons a t ih => exact sorted_insertHit a (sortHits t) ih

/-- C7: every result sequence returned by search has non-increasing
scores, and every returned score is at least `min_score` (default 0). -/
theorem search_ordering (embed : String → List Rat)
    (sim : List Rat → List Rat → Rat) (store : List SnippetDoc)
    (query_text : String) (top_k : Int) (project_id : Option String)
    (min_score : Option Rat) (hits : List Hit)
    (h : search embed sim store query_text top_k project_id min_score
          = Except.ok hits) :
    hits.Pairwise (fun a b => b.score ≤ a.score) ∧
    ∀ x ∈ hits, min_score.getD 0 ≤ x.score := by
  by_cases hk : top_k ≤ 0
  · rw [search, if_pos hk] at h
    cases h
  · rw [search, if_neg hk] at h
    simp only [Except.ok.injEq] at h
    subst h
    constructor
    · refine List.Pairwise.sublist (List.take_sublist _ _) ?_
      refine List.Pairwise.filter _ ?_
      simp only [similarity_search]
      exact List.Pairwise.sublist (List.take_sublist _ _) (sorted_sortHits _)
    · intro x hx
      have hx2 := List.mem_of_mem_take hx
      exact of_decide_eq_true (List.mem_filter.mp hx2).2

/-- Witness for C7: a concrete search over a two-document store returns a
ranked sequence above the threshold. -/
theorem search_ordering_witness :
    ([⟨⟨"a", "p1", "fib", "c1", "unknown", none, [2], 1⟩, 2⟩,
      ⟨⟨"b", "p1", "gcd", "c2", "unknown", none, [1], 1⟩, 1⟩] :
        List Hit).Pairwise (fun a b => b.score ≤ a.score) ∧
    ∀ x ∈ ([⟨⟨"a", "p1", "fib", "c1", "unknown", none, [2], 1⟩, 2⟩,
      ⟨⟨"b", "p1", "gcd", "c2", "unknown", none, [1], 1⟩, 1⟩] : List Hit),
      (Option.getD (some 1) 0 : Rat) ≤ x.score :=
  search_ordering (fun _ => []) (fun _ e => e.headD 0)
    [⟨"b", "p1", "gcd", "c2", "unknown", none, [1], 1⟩,
     ⟨"a", "p1", "fib", "c1", "unknown", none, [2], 1⟩]
    "fibonacci" 5 none (some 1) _ rfl

/-- C8: the result never exceeds `top_k` entries; `top_k ≤ 0` fails with
ValidationError; the empty result is a valid success outcome. -/
theorem search_size (embed : String → List Rat)
    (sim : List Rat → List Rat → Rat) (store : List SnippetDoc)
    (query_text : String) (top_k : Int) (project_id : Option String)
    (min_score : Option Rat) :
    (∀ hits, search embed sim store query_text top_k project_id min_score
        = Except.ok hits → hits.length ≤ top_k.toNat) ∧
    (top_k ≤ 0 → search embed sim store query_text top_k project_id min_score
        = Except.error RepoError.validationError) ∧
    search embed sim [] query_text 5 project_id min_score = Except.ok [] := by
  refine ⟨?_, ?_, ?_⟩
  · intro hits h
    by_cases hk : top_k ≤ 0
    · rw [search, if_pos hk] at h
      cases h
    · rw [search, if_neg hk] at h
      simp only [Except.ok.injEq] at h
      subst h
      exact List.length_take_le _ _
  · intro hk
    rw [search, if_pos hk]
  · rcases project_id with _ | pid <;> rfl

/-- Witness for C8: a concrete search respects the size bound, `top_k =
0` is rejected, and the empty store yields the empty success result. -/
theorem search_size_witness :
    ([] : List Hit).length ≤ (3 : Int).toNat ∧
    search (fun _ => []) (fun _ _ => 0) [] "q" 0 none none
      = Except.error RepoError.validationError ∧
    search (fun _ => []) (fun _ _ => 0) [] "q" 5 none none = Except.ok [] :=
  ⟨(search_size (fun _ => []) (fun _ _ => 0) [] "q" 3 none none).1 [] rfl,
   (search_size (fun _ => []) (fun _ _ => 0) [] "q" 0 none none).2.1 (by decide),
   (search_size (fun _ => []) (fun _ _ => 0) [] "q" 5 none none).2.2⟩

/-! ### The Ingestion Pipeline theorem -/

/-- C9: a batch of N items of which M are malformed yields exactly N − M
accepted documents and M recorded IngestionErrors, and the accepted
documents are exactly the parses of the well-formed items in batch order
— no well-formed item is lost or skipped because of a malformed item
elsewhere. -/
theorem batch_partial_failure (batch : List RawItem) :
    (processBatch batch).accepted.length
        = batch.length - batch.countP (fun r => (parseItem r).isNone) ∧
    (processBatch batch).errors.length
        = batch.countP (fun r => (parseItem r).isNone) ∧
    (processBatch batch).accepted = batch.filterMap parseItem := by
  induction batch with
  | nil => exact ⟨rfl, rfl, rfl⟩
  | cons r t ih =>
    obtain ⟨ih1, ih2, ih3⟩ := ih
    have hcount := List.countP_cons (fun r => (parseItem r).isNone) r t
    rcases hp : parseItem r with _ | args
    · refine ⟨?_, ?_, ?_⟩
      · simp only [processBatch, hp, ih1, hcount, hp, Option.isNone_none,
          List.length_cons, if_pos]
        omega
      · simp only [processBatch, hp, List.length_cons, ih2, hcount,
          Option.isNone_none, if_pos]
      · simp only [processBatch, hp, ih3, List.filterMap_cons, hp]
    · refine ⟨?_, ?_, ?_⟩
      · simp only [processBatch, hp, List.length_cons, ih1, hcount,
          Option.isNone_some, if_neg, Bool.false_eq_true, not_false_iff]
        have hle : t.countP (fun r => (parseItem r).isNone) ≤ t.length :=
          List.countP_le_length _
        omega
      · simp only [processBatch, hp, ih2, hcount, Option.isNone_some,
          if_neg, Bool.false_eq_true, not_false_iff, Nat.add_zero]
      · simp only [processBatch, hp, List.filterMap_cons, hp, ih3]

/-! ### Lemmas about the Multi-Agent Orchestrator -/

theorem inv_init (g : TaskGraph) : Inv g initState := by
  constructor
  · intro t h
    cases h
  · intro t h
    rcases h with h | h <;> cases h

theorem inv_step {g : TaskGraph} {s s2 : OrchState} (hs : Inv g s)
    (hstep : Step g s s2) : Inv g s2 := by
  obtain ⟨h1, h2⟩ := hs
  cases hstep with
  | start t ht hp hd =>
    constructor
    · intro u hu d hdep
      by_cases hut : u = t
      · subst hut
        have hdone := hd d hdep
        have hdt : d ≠ u := fun h => by rw [h, hp] at hdone; cases hdone
        simpa [Function.update_noteq hdt] using hdone
      · rw [show (⟨Function.update s.st t TState.running,
            Function.update s.invoked t true⟩ : OrchState).invoked u
              = s.invoked u from Function.update_noteq hut _ _] at hu
        have hdone := h1 u hu d hdep
        have hdt : d ≠ t := fun h => by rw [h, hp] at hdone; cases hdone
        simpa [Function.update_noteq hdt] using hdone
    · intro u hu
      by_cases hut : u = t
      · subst hut
        simp [Function.update_same]
      · rw [show (⟨Function.update s.st t TState.running,
            Function.update s.invoked t true⟩ : OrchState).st u
              = s.st u from Function.update_noteq hut _ _] at hu
        simpa [Function.update_noteq hut] using h2 u hu
  | finish t ok hr =>
    constructor
    · intro u hu d hdep
      have hdone := h1 u hu d hdep
      have hdt : d ≠ t := fun h => by rw [h, hr] at hdone; cases hdone
      simpa [Function.update_noteq hdt] using hdone
    · intro u hu
      by_cases hut : u = t
      · subst hut
        exact h2 u (Or.inl hr)
      · rw [show (⟨Function.update s.st t
            (if ok then TState.done else TState.failed),
            s.invoked⟩ : OrchState).st u
              = s.st u from Function.update_noteq hut _ _] at hu
        exact h2 u hu
  | failFast t ht hp d0 hdep0 hf =>
    constructor
    · intro u hu d hdep
      have hdone := h1 u hu d hdep
      have hdt : d ≠ t := fun h => by rw [h, hp] at hdone; cases hdone
      simpa [Function.update_noteq hdt] using hdone
    · intro u hu
      by_cases hut : u = t
      · subst hut
        rw [show (⟨Function.update s.st u TState.failed,
            s.invoked⟩ : OrchState).st u = TState.failed
              from Function.update_same _ _ _] at hu
        rcases hu with hu | hu <;> cases hu
      · rw [show (⟨Function.update s.st t TState.failed,
            s.invoked⟩ : OrchState).st u = s.st u
              from Function.update_noteq hut _ _] at hu
        exact h2 u hu
  | timeout t hp =>
    constructor
    · intro u hu d hdep
      have hdone := h1 u hu d hdep
      have hdt : d ≠ t := fun h => by
        rw [h] at hdone
        rcases hp with hp | hp <;> rw [hp] at hdone <;> cases hdone
      simpa [Function.update_noteq hdt] using hdone
    · intro u hu
      by_cases hut : u = t
      · subst hut
        rw [show (⟨Function.update s.st u TState.failed,
            s.invoked⟩ : OrchState).st u = TState.failed
              from Function.update_same _ _ _] at hu
        rcases hu with hu | hu <;> cases hu
      · rw [show (⟨Function.update s.st t TState.failed,
            s.invoked⟩ : OrchState).st u = s.st u
              from Function.update_noteq hut _ _] at hu
        exact h2 u hu

theorem inv_reachable {g : TaskGraph} {s : OrchState}
    (h : Reachable g s) : Inv g s := by
  induction h with
  | init => exact inv_init g
  | step _ hstep ih => exact inv_step ih hstep

theorem depTrans_done {g : TaskGraph} {s : OrchState} (hs : Inv g s)
    {d t : Nat} (hdt : DepTrans g d t) (hinv : s.invoked t = true) :
    s.st d = TState.done := by
  induction hdt with
  | direct ht hdep => exact hs.1 _ hinv _ hdep
  | tail hdu ht hdep ih =>
    have hu := hs.1 _ hinv _ hdep
    exact ih (hs.2 _ (Or.inr hu))

theorem depTrans_lt {g : TaskGraph} {d t : Nat} (h : DepTrans g d t) :
    t < g.numTasks := by
  cases h with
  | direct ht _ => exact ht
  | tail _ ht _ => exact ht

/-- C10: in every reachable orchestrator state a RUNNING task has all its
dependencies DONE; and once any (transitive) dependency of a task is
FAILED, the Reasoning Agent is never invoked for that task, and in every
finished reachable state the task ends FAILED. -/
theorem orchestrator_dag_correct (g : TaskGraph) (s : OrchState)
    (hs : Reachable g s) :
    (∀ t, s.st t = TState.running →
      ∀ d ∈ g.deps t, s.st d = TState.done) ∧
    (∀ d t, DepTrans g d t → s.st d = TState.failed →
      s.invoked t = false ∧ (Finished g s → s.st t = TState.failed)) := by
  have hinv : Inv g s := inv_reachable hs
  constructor
  · intro t hrun d hdep
    exact hinv.1 t (hinv.2 t (Or.inl hrun)) d hdep
  · intro d t hdt hfail
    have hninv : s.invoked t = false := by
      cases hb : s.invoked t
      · rfl
      · exfalso
        have hdone := depTrans_done hinv hdt hb
        rw [hfail] at hdone
        cases hdone
    refine ⟨hninv, ?_⟩
    intro hfin
    rcases hfin t (depTrans_lt hdt) with hdone | hfailed
    · exfalso
      have := hinv.2 t (Or.inr hdone)
      rw [hninv] at this
      cases this
    · exact hfailed

/-- Witness for C10: in the two-task graph where task 1 depends on task 0
and the agent fails task 0, the finished run leaves task 1 FAILED with
the agent never invoked for it. -/
theorem orchestrator_dag_correct_witness :
    wOrchC.invoked 1 = false ∧ wOrchC.st 1 = TState.failed := by
  have hreach : Reachable wG wOrchC :=
    Reachable.step (Reachable.step (Reachable.step Reachable.init
      (Step.start 0 (by decide) rfl (by
        intro d hd
        simp [wG] at hd)))
      (Step.finish 0 false rfl))
      (Step.failFast 1 (by decide) rfl 0 (by simp [wG]) rfl)
  have h := (orchestrator_dag_correct wG wOrchC hreach).2 0 1
      (DepTrans.direct (by decide) (by simp [wG])) rfl
  refine ⟨h.1, h.2 ?_⟩
  intro u hu
  match u, hu with
  | 0, _ => exact Or.inr rfl
  | 1, _ => exact Or.inr rfl

end Snippy
